import Mathlib

/-!
Shallow embedding of the sitcpy library (SiTCP RBCP / DAQ toolkit) and
verification of its specification claims.

Addresses, lengths and bytes are natural numbers (the Python code only ever
handles non-negative values for these, except where a sign check appears in
the source, in which case we use `Int`).  Byte strings are `List Nat`.
Fallible Python code (raising exceptions) is embedded with `Option`/`Except`.
Callback dictionaries are association lists `List (Nat × Nat)` mapping a byte
address to an opaque callback identifier; callback invocation is modelled by
an explicit invocation trace.
-/

namespace Sitcpy

/-! ### sitcpy/__init__.py — State -/

/-- Source `State.transit` from `sitcpy/__init__.py` lines 57-74.
Input: current state value and requested new state.  Output:
(return value, state after the call, whether `notify_all` was called). -/
def State.transit (s newState : Int) : Bool × Int × Bool :=
  if newState > s then (true, newState, true) else (false, s, false)

/-- State value after a sequence of `transit` calls starting from `s0`. -/
def stateAfter (s0 : Int) (ops : List Int) : Int :=
  ops.foldl (fun s n => (State.transit s n).2.1) s0

/-- Source `State.wait` from `sitcpy/__init__.py` lines 76-102, modelled over the
sequence `observed` of state values the loop samples (on entry and after each
condition-variable wake-up) within the timeout window; with a null timeout the
window is unbounded and `observed` is the whole future sample sequence.  The
loop returns True exactly when some sample reaches the target. -/
def waitResult (target : Int) (observed : List Int) : Bool :=
  observed.any (fun s => decide (target ≤ s))

/-! ### sitcpy/rbcp.py — client wire codec -/

/-- Source `Rbcp._make_header` from `sitcpy/rbcp.py` lines 93-125.  `readWrite` is
`HEADER_READ = 0` or `HEADER_WRITE = 1`.  Address and length are `Int` because
the source checks them for negativity; the `is_int` type checks are captured
by the `Int` type itself.  The final `struct.pack("8B", ...)` raises for a
field outside 0..255, hence the packet-id guard. -/
def Rbcp.makeHeader (readWrite : Nat) (registerAddress length : Int)
    (packetId : Nat) : Except String (List Nat) :=
  if registerAddress < 0 ∨ registerAddress > 0xffffffff then
    .error ("Invalid register address.")
  else if length < 0 ∨ length > 255 then
    .error ("Specify a value between 0 and 255 for SiTCP read/write length.")
  else if registerAddress + length > 0xffffffff then
    .error ("Invalid register address.")
  else
    let commandType : Nat := if readWrite = 0 then 0xc0 else 0x80
    let a : Nat := registerAddress.toNat
    if packetId ≤ 255 then
      .ok [0xff, commandType, packetId, length.toNat,
        ((a &&& 0xff000000) >>> 24) &&& 0xff,
        ((a &&& 0x00ff0000) >>> 16) &&& 0xff,
        ((a &&& 0x0000ff00) >>> 8) &&& 0xff,
        ((a &&& 0x000000ff) >>> 0) &&& 0xff]
    else .error ("pack")

/-- The distinct failures `Rbcp._check_packet` can raise: the three
`RbcpError` (protocol) messages and `RbcpBusError`. -/
inductive RbcpFault where
  | headerTooShort
  | versionMismatch
  | busError
  | idMismatch
deriving DecidableEq

/-- Source `Rbcp._check_packet` from `sitcpy/rbcp.py` lines 175-194, check order as
in the source: length, version byte, bus-error bit, packet id. -/
def Rbcp.checkPacket (packet : List Nat) (waitId : Nat) : Except RbcpFault Unit :=
  if packet.length < 8 then .error .headerTooShort
  else if packet.getD 0 0 ≠ 0xff then .error .versionMismatch
  else if (packet.getD 1 0) &&& 0x1 = 1 then .error .busError
  else if packet.getD 2 0 ≠ waitId then .error .idMismatch
  else .ok ()

/-! ### sitcpy/rbcp_server.py — virtual registers -/

/-- Source `VirtualRegister` from `sitcpy/rbcp_server.py` lines 68-85: a start
address, backing memory, and the read/write callback dictionaries
(address to opaque callback identifier). -/
structure VirtualRegister where
  start : Nat
  mem : List Nat
  rcb : List (Nat × Nat) := []
  wcb : List (Nat × Nat) := []
deriving DecidableEq

/-- Dictionary lookup for the callback association lists. -/
def lookupCb : List (Nat × Nat) → Nat → Option Nat
  | [], _ => none
  | (a, cid) :: tl, h => if a = h then some cid else lookupCb tl h

/-- Source `VirtualRegister.check_address_range`, lines 324-334. -/
def VirtualRegister.checkAddressRange (r : VirtualRegister)
    (address length : Nat) : Bool :=
  decide (r.start ≤ address) && decide (r.start + r.mem.length ≥ address + length)

/-- Python slice assignment `mem[off:off+len(data)] = data`. -/
def listWrite (base : List Nat) (off : Nat) (data : List Nat) : List Nat :=
  base.take off ++ data ++ base.drop (off + data.length)

/-- Trace of read-callback invocations over the address list, in loop order
(`read_bytes` lines 365-367). -/
def readTrace (rcb : List (Nat × Nat)) : List Nat → List (Nat × Nat)
  | [] => []
  | h :: tl =>
    match lookupCb rcb h with
    | none => readTrace rcb tl
    | some cid => (h, cid) :: readTrace rcb tl

/-- Trace of write-callback invocations over the address list
(`write_bytes` lines 346-349).  Each invoked callback receives
`data_bytes[write_address - self._start_address]` exactly as in the source;
an out-of-range index (Python `IndexError`) yields `none`. -/
def writeTrace (wcb : List (Nat × Nat)) (startAddr : Nat) (dataBytes : List Nat) :
    List Nat → Option (List (Nat × Nat × Nat))
  | [] => some []
  | h :: tl =>
    match lookupCb wcb h with
    | none => writeTrace wcb startAddr dataBytes tl
    | some cid =>
      match dataBytes.get? (h - startAddr) with
      | none => none
      | some v => (writeTrace wcb startAddr dataBytes tl).map
          (fun rest => (h, cid, v) :: rest)

/-- Failures of register access: `VirtualRegisterOutOfRange` and a Python
`IndexError` escaping from the write-callback loop. -/
inductive RegError where
  | outOfRange
  | indexError
deriving DecidableEq

/-- Source `VirtualRegister.read_bytes`, lines 356-372: on a valid range, invoke the
read callbacks over every byte address and return the memory slice.  Result is
(bytes, read-callback invocation trace). -/
def VirtualRegister.readBytes (r : VirtualRegister) (address byteLength : Nat) :
    Option (List Nat × List (Nat × Nat)) :=
  if r.checkAddressRange address byteLength then
    some ((r.mem.drop (address - r.start)).take byteLength,
      readTrace r.rcb (List.range' address byteLength))
  else none

/-- Source `VirtualRegister.write_bytes`, lines 336-354: on a valid range, invoke
the write callbacks over every byte address (all before the memory commit),
then splice the data into memory.  Result is (updated register,
write-callback invocation trace (address, callback id, value passed)). -/
def VirtualRegister.writeBytes (r : VirtualRegister) (address : Nat)
    (dataBytes : List Nat) :
    Except RegError (VirtualRegister × List (Nat × Nat × Nat)) :=
  if r.checkAddressRange address dataBytes.length then
    match writeTrace r.wcb r.start dataBytes
        (List.range' address dataBytes.length) with
    | none => .error .indexError
    | some tr =>
      .ok ({ r with mem := listWrite r.mem (address - r.start) dataBytes }, tr)
  else .error .outOfRange

/-- Source `VirtualRegister._is_intersect`, lines 111-126. -/
def VirtualRegister.isIntersect (r other : VirtualRegister) : Bool :=
  if r.start ≤ other.start then
    decide (r.start + r.mem.length > other.start)
  else
    decide (other.start + other.mem.length > r.start)

/-- Source `VirtualRegister._is_neighbor`, lines 128-138. -/
def VirtualRegister.isNeighbor (r other : VirtualRegister) : Bool :=
  decide (r.start + r.mem.length = other.start)
    || decide (other.start + other.mem.length = r.start)

/-- Source `VirtualRegister.merge`, lines 140-171: when `other` is a neighbor of or
intersects `r`, build a fresh register spanning both, write `r`'s memory then
`other`'s memory into it (so `other`'s bytes win on overlap), and keep `r`'s
own callback dictionaries (the fresh register has none, so the two interior
`write_bytes` calls invoke nothing).  `none` models the unmerged (False)
result. -/
def VirtualRegister.merge (r other : VirtualRegister) : Option VirtualRegister :=
  if r.isNeighbor other || r.isIntersect other then
    match (VirtualRegister.mk (min r.start other.start)
        (List.replicate
          (max (r.start + r.mem.length) (other.start + other.mem.length)
            - min r.start other.start) 0) [] []).writeBytes r.start r.mem with
    | .error _ => none
    | .ok (merged1, _) =>
      match merged1.writeBytes other.start other.mem with
      | .error _ => none
      | .ok (merged2, _) =>
        some { r with start := min r.start other.start, mem := merged2.mem }
  else none

/-- A byte address lies inside a register's range. -/
abbrev covers (r : VirtualRegister) (a : Nat) : Prop :=
  r.start ≤ a ∧ a < r.start + r.mem.length

/-- The register's byte at address `a`. -/
def byteAt (r : VirtualRegister) (a : Nat) : Option Nat :=
  r.mem.get? (a - r.start)

/-- Number of regions of the bank containing address `a`. -/
def countCovers (bank : List VirtualRegister) (a : Nat) : Nat :=
  bank.countP (fun r => decide (covers r a))

/-- The backing memory `merge` builds for the region that absorbs `other`:
a zeroed span from `min` of the starts to `max` of the ends, overwritten
first with `r`'s memory and then with `other`'s (so `other` wins on
overlap).  Stated separately so the `merge` lemmas can name it. -/
def mergeMem (r other : VirtualRegister) : List Nat :=
  listWrite
    (listWrite
      (List.replicate
        (max (r.start + r.mem.length) (other.start + other.mem.length)
          - min r.start other.start) 0)
      (r.start - min r.start other.start) r.mem)
    (other.start - min r.start other.start) other.mem

/-! ### sitcpy/rbcp_server.py — RbcpServer -/

/-- Source `RbcpServer.read_registers`, lines 426-441: scan the regions in order and
return the first successful read. -/
def readRegisters : List VirtualRegister → Nat → Nat → Option (List Nat)
  | [], _, _ => none
  | r :: tl, a, len =>
    match r.readBytes a len with
    | some (bytes, _) => some bytes
    | none => readRegisters tl a len

/-- Failures of `RbcpServer.write_registers`: all regions out of range, or an
uncaught `IndexError` from a write callback (which kills the server loop). -/
inductive WriteFault where
  | outOfRange
  | crash
deriving DecidableEq

/-- Source `RbcpServer.write_registers`, lines 443-462: scan the regions in order;
`VirtualRegisterOutOfRange` is caught and the scan continues, any other
exception propagates.  On success the written region is read back. -/
def writeRegisters : List VirtualRegister → Nat → List Nat →
    Except WriteFault (List VirtualRegister × List Nat)
  | [], _, _ => .error .outOfRange
  | r :: tl, a, data =>
    match r.writeBytes a data with
    | .ok (r2, _) =>
      match r2.readBytes a data.length with
      | some (bytes, _) => .ok (r2 :: tl, bytes)
      | none =>
        match writeRegisters tl a data with
        | .ok (bank, bytes) => .ok (r2 :: bank, bytes)
        | .error e => .error e
    | .error .outOfRange =>
      match writeRegisters tl a data with
      | .ok (bank, bytes) => .ok (r :: bank, bytes)
      | .error e => .error e
    | .error .indexError => .error .crash

/-- Inner loop of `RbcpServer.merge_registers` (lines 500-506) for a fixed
`register1 = r`: try to merge each later region into `r` in order; on success
return the merged region and the remaining list with that region removed. -/
def mergeFirst (r : VirtualRegister) : List VirtualRegister →
    Option (VirtualRegister × List VirtualRegister)
  | [] => none
  | s :: tl =>
    match r.merge s with
    | some m => some (m, tl)
    | none => (mergeFirst r tl).map (fun p => (p.1, s :: p.2))

/-- One pass of `RbcpServer.merge_registers`: find the first pair
(index1 < index2) that merges, replace index1 by the merged region and delete
index2.  `none` when no pair merges. -/
def mergeStep : List VirtualRegister → Option (List VirtualRegister)
  | [] => none
  | r :: tl =>
    match mergeFirst r tl with
    | some (m, tl2) => some (m :: tl2)
    | none => (mergeStep tl).map (fun l => r :: l)

/-- The recursion of `RbcpServer.merge_registers`, lines 493-506: repeat
`mergeStep` until no pair merges.  Each successful step removes one region, so
`regs.length` steps of fuel always suffice. -/
def mergeRegistersGo : Nat → List VirtualRegister → List VirtualRegister
  | 0, regs => regs
  | fuel + 1, regs =>
    match mergeStep regs with
    | none => regs
    | some regs2 => mergeRegistersGo fuel regs2

/-- Source `RbcpServer.merge_registers` (the spec's `merge_all`). -/
def mergeRegisters (regs : List VirtualRegister) : List VirtualRegister :=
  mergeRegistersGo regs.length regs

/-- Source `_make_header` from `sitcpy/rbcp_server.py` lines 42-65.  The
`struct.pack("8B", ...)` raises (returns `none` here) when the packet id or
length byte exceeds 255; the masked address bytes never do. -/
def makeHeaderSrv (readWrite : String) (packetId registerAddress length : Nat) :
    Option (List Nat) :=
  let commandType : Nat :=
    if readWrite = "r" then 0xc8
    else if readWrite = "w" then 0x88
    else if readWrite = "re" then 0xc9
    else if readWrite = "we" then 0x89
    else 0
  if packetId ≤ 255 ∧ length ≤ 255 then
    some [0xff, commandType, packetId, length,
      ((registerAddress &&& 0xff000000) >>> 24) &&& 0xff,
      ((registerAddress &&& 0x00ff0000) >>> 16) &&& 0xff,
      ((registerAddress &&& 0x0000ff00) >>> 8) &&& 0xff,
      ((registerAddress &&& 0x000000ff) >>> 0) &&& 0xff]
  else none

/-- Source `struct.unpack(">I", rbcp_msg[4:8])`: the big-endian register address of
a request datagram. -/
def rbcpAddrOf (msg : List Nat) : Nat :=
  msg.getD 4 0 * 16777216 + msg.getD 5 0 * 65536 + msg.getD 6 0 * 256
    + msg.getD 7 0

/-- Datagram dispatch of `RbcpServer.run`, lines 556-602: one request
datagram against the bank.  `none` models a dropped datagram (short, wrong
version, unknown command) or a crash of the listener (an exception other than
`VirtualRegisterOutOfRange`/`OSError`, e.g. `struct.error` from a length
above 255 or an `IndexError` from a write callback).  On a reply, returns
(reply datagram, bank after the access). -/
def processDatagram (bank : List VirtualRegister) (msg : List Nat) :
    Option (List Nat × List VirtualRegister) :=
  if msg.length < 8 then none
  else if msg.getD 0 0 ≠ 0xff then none
  else if msg.getD 1 0 ≠ 0xc0 ∧ msg.getD 1 0 ≠ 0x80 then none
  else if msg.getD 1 0 = 0xc0 then
    match readRegisters bank (rbcpAddrOf msg) (msg.getD 3 0) with
    | some readData =>
      (makeHeaderSrv ("r") (msg.getD 2 0) (rbcpAddrOf msg) (msg.getD 3 0)).map
        (fun h => (h ++ readData, bank))
    | none =>
      (makeHeaderSrv ("re") (msg.getD 2 0) (rbcpAddrOf msg)
          (msg.drop 8).length).map
        (fun h => (h ++ msg.drop 8, bank))
  else
    match writeRegisters bank (rbcpAddrOf msg)
        ((msg.drop 8).take (msg.getD 3 0)) with
    | .ok (bank2, _) =>
      (makeHeaderSrv ("w") (msg.getD 2 0) (rbcpAddrOf msg) (msg.getD 3 0)).map
        (fun h => (h ++ msg.drop 8, bank2))
    | .error .outOfRange =>
      (makeHeaderSrv ("we") (msg.getD 2 0) (rbcpAddrOf msg)
          (msg.drop 8).length).map
        (fun h => (h ++ msg.drop 8, bank))
    | .error .crash => none

/-! ### sitcpy/cui.py — text framing -/

/-- Python `bytes.find(pat)` (first index of the sub-sequence, `none`
for -1). -/
def firstOccur (pat : List Nat) : List Nat → Option Nat
  | [] => if pat.length = 0 then some 0 else none
  | h :: tl =>
    if (h :: tl).take pat.length = pat then some 0
    else (firstOccur pat tl).map (· + 1)

/-- Source `TextHandler.find_delimiter_position` from `sitcpy/cui.py` lines 154-174:
try `\r\n`, then `\n`, then `\r` — each over the whole buffer — and return
(index just after the first occurrence of the winning pattern, that pattern,
remembered as the session line separator).  `none` models -1. -/
def findDelimiterPosition (byteData : List Nat) : Option (Nat × List Nat) :=
  match firstOccur [13, 10] byteData with
  | some pos => some (pos + 2, [13, 10])
  | none =>
    match firstOccur [10] byteData with
    | some pos => some (pos + 1, [10])
    | none =>
      match firstOccur [13] byteData with
      | some pos => some (pos + 1, [13])
      | none => none

/-- One receive iteration of `SessionThread.run`, lines 695-711: prepend the
residual bytes, find the delimiter; if found, the message handed to `on_data`
is `byte_data[:delimiter_pos]` and the residual becomes
`byte_data[delimiter_pos:]`.  Result: (message passed to on_data if any,
new residual, detected line separator if any). -/
def sessionStep (restByteData chunk : List Nat) :
    Option (List Nat) × List Nat × Option (List Nat) :=
  let byteData := restByteData ++ chunk
  match findDelimiterPosition byteData with
  | some (pos, sep) => (some (byteData.take pos), byteData.drop pos, some sep)
  | none => (none, byteData, none)

/-! ### sitcpy/daq_client.py — DAQ receive loop -/

/-- One receive iteration of `DaqClient.run`, lines 314-331: append the new
chunk to the pending buffer; when at least one complete unit is present, hand
the maximal whole-unit portion to `on_daq_data` and keep the remainder.
Result: (buffer passed to `on_daq_data` if any, new pending buffer). -/
def daqStep (dataUnit : Nat) (pending chunk : List Nat) :
    Option (List Nat) × List Nat :=
  let byteArray := pending ++ chunk
  let length := byteArray.length
  if length ≥ dataUnit then
    let rest := length % dataUnit
    if rest = 0 then (some byteArray, [])
    else (some (byteArray.take (length - rest)), byteArray.drop (length - rest))
  else (none, byteArray)

/-- The receive loop over a sequence of received chunks: collects every
buffer handed to `on_daq_data`, and the final pending buffer. -/
def daqRun (dataUnit : Nat) (pending : List Nat) :
    List (List Nat) → List (List Nat) × List Nat
  | [] => ([], pending)
  | chunk :: more =>
    match daqStep dataUnit pending chunk with
    | (none, pending2) => daqRun dataUnit pending2 more
    | (some out, pending2) =>
      let r := daqRun dataUnit pending2 more
      (out :: r.1, r.2)

/-! ### sitcpy/rbcp_server.py — DataGenerator -/

/-- Source `struct.pack(">L", count)`: 4 big-endian bytes (the generator's counter
is always below 2^32). -/
def packBE4 (count : Nat) : List Nat :=
  [count / 16777216 % 256, count / 65536 % 256, count / 256 % 256, count % 256]

/-- Body of one iteration of the loop in `DataGenerator.create_data`
(lines 671-678): write the 0xA5 sentinel at the unit's offset 0 and the
big-endian counter at offsets 4..7 (`self._data_unit` is fixed at 8). -/
def stampUnit (data : List Nat) (unitIdx count : Nat) : List Nat :=
  let cb := packBE4 count
  ((((data.set (8 * unitIdx) 0xa5).set (8 * unitIdx + 4) (cb.getD 0 0)).set
      (8 * unitIdx + 5) (cb.getD 1 0)).set
      (8 * unitIdx + 6) (cb.getD 2 0)).set (8 * unitIdx + 7) (cb.getD 3 0)

/-- The loop `for data_unit in range(0, data_unit_count - 1)` of
`DataGenerator.create_data`, with the counter increment and its wrap
(`count + 1 == 0xffffffff` resets to 0), iterated `k` times from unit index
`unitIdx`. -/
def createDataLoop : List Nat → Nat → Nat → Nat → List Nat × Nat
  | data, count, _, 0 => (data, count)
  | data, count, unitIdx, k + 1 =>
    createDataLoop (stampUnit data unitIdx count)
      (if count + 1 = 0xffffffff then 0 else count + 1) (unitIdx + 1) k

/-- Source `DataGenerator.create_data(data_unit_count)` from `sitcpy/rbcp_server.py`
lines 662-681, with the generator's counter passed in and returned:
a zero record of `8 * data_unit_count` bytes stamped by the loop
`range(0, data_unit_count - 1)` (which iterates `data_unit_count - 1`
times). -/
def createData (count dataUnitCount : Nat) : List Nat × Nat :=
  createDataLoop (List.replicate (8 * dataUnitCount) 0) count 0
    (dataUnitCount - 1)

/-! ## Theorems -/

/-- Any single `transit` call can only move the state forward. -/
theorem transit_le (s n : Int) : s ≤ (State.transit s n).2.1 := by
  unfold State.transit
  split
  · rename_i h
    simp only
    omega
  · simp only
    omega

/-- Running further `transit` calls never decreases the state. -/
theorem stateAfter_le (s0 : Int) (ops : List Int) : s0 ≤ stateAfter s0 ops := by
  induction ops generalizing s0 with
  | nil => simp [stateAfter]
  | cons n tl ih =>
    calc s0 ≤ (State.transit s0 n).2.1 := transit_le s0 n
    _ ≤ stateAfter (State.transit s0 n).2.1 tl := ih _
    _ = stateAfter s0 (n :: tl) := by simp [stateAfter, List.foldl_cons]

/-- C9: for every sequence of `transit` calls the observed state value is
monotonically non-decreasing; `transit` sets the state and returns true
exactly when the new value is strictly greater than the current one, and
otherwise changes nothing and returns false; every successful transition
issues the wake-all notification (and only those do); and the wait loop
returns true iff some state value sampled within the window reaches the
target. -/
theorem state_monotonic_contract (s0 : Int) (ops : List Int) (i j : Nat)
    (hij : i ≤ j) (s newState target : Int) (obs : List Int) :
    stateAfter s0 (ops.take i) ≤ stateAfter s0 (ops.take j)
    ∧ ((State.transit s newState).1 = true ↔ s < newState)
    ∧ ((State.transit s newState).1 = true → (State.transit s newState).2.1 = newState)
    ∧ ((State.transit s newState).1 = false → (State.transit s newState).2.1 = s)
    ∧ ((State.transit s newState).2.2 = (State.transit s newState).1)
    ∧ (waitResult target obs = true ↔ ∃ x ∈ obs, target ≤ x) := by
  refine ⟨?_, ?_, ?_, ?_, ?_, ?_⟩
  · have hsplit : ops.take j = ops.take i ++ (ops.drop i).take (j - i) := by
      rw [← List.take_add]
      congr 1
      omega
    rw [hsplit]
    unfold stateAfter
    rw [List.foldl_append]
    exact stateAfter_le _ _
  · unfold State.transit
    split <;> simp <;> omega
  · unfold State.transit
    split <;> simp
  · unfold State.transit
    split <;> simp
  · unfold State.transit
    split <;> simp
  · simp [waitResult]

/-- Witness for C9 at concrete inputs. -/
theorem state_monotonic_contract_witness :
    ((0 : Nat) ≤ 1)
    ∧ (stateAfter 0 ([1, 0, 2].take 0) ≤ stateAfter 0 ([1, 0, 2].take 1)
      ∧ ((State.transit 0 2).1 = true ↔ (0 : Int) < 2)
      ∧ ((State.transit 0 2).1 = true → (State.transit 0 2).2.1 = 2)
      ∧ ((State.transit 0 2).1 = false → (State.transit 0 2).2.1 = 0)
      ∧ ((State.transit 0 2).2.2 = (State.transit 0 2).1)
      ∧ (waitResult 2 [0, 2] = true ↔ ∃ x ∈ ([0, 2] : List Int), 2 ≤ x)) :=
  ⟨by decide, state_monotonic_contract 0 [1, 0, 2] 0 1 (by decide) 0 2 2 [0, 2]⟩

/-- C2 counterexample: the pair (address 0xFFFFFFFF, length 1) has
address + length = 2^32, which the claim says is accepted, but
`_make_header` rejects it (`address + length > 0xffffffff` check). -/
theorem makeHeader_boundary_rejected :
    Rbcp.makeHeader 0 0xffffffff 1 0 = .error ("Invalid register address.")
    ∧ (0xffffffff + 1 : Int) = 2 ^ 32 := by
  constructor
  · rfl
  · norm_num

/-- C2 (amended): `_make_header` succeeds with an 8-byte header exactly when
the address and length are non-negative, the length is at most 255, the
address is at most 0xFFFFFFFF and address + length is at most 0xFFFFFFFF
(not 2^32); on every other integer input it fails before any I/O. -/
theorem makeHeader_ok_iff (addr len : Int) :
    (∃ bs, Rbcp.makeHeader 0 addr len 0 = .ok bs ∧ bs.length = 8)
    ↔ (0 ≤ addr ∧ addr ≤ 0xffffffff ∧ 0 ≤ len ∧ len ≤ 255
        ∧ addr + len ≤ 0xffffffff) := by
  unfold Rbcp.makeHeader
  split
  · rename_i h
    constructor
    · rintro ⟨bs, hbs, _⟩
      cases hbs
    · intro h2
      omega
  · split
    · rename_i h h2
      constructor
      · rintro ⟨bs, hbs, _⟩
        cases hbs
      · intro h3
        omega
    · split
      · rename_i h h2 h3
        constructor
        · rintro ⟨bs, hbs, _⟩
          cases hbs
        · intro h4
          omega
      · rename_i h h2 h3
        rw [if_pos (by norm_num : (0 : Nat) ≤ 255)]
        constructor
        · intro _
          omega
        · intro _
          exact ⟨_, rfl, rfl⟩

/-- C3 counterexample: an 8-byte reply with version 0xFF, command byte 0xC9
(bus-error bit set) and id byte 7 checked against expected id 3: the claim
says the Protocol id-mismatch error is raised, but the source checks the
bus-error bit first and raises `RbcpBusError`. -/
theorem checkPacket_buserror_precedes_id :
    Rbcp.checkPacket [0xff, 0xc9, 7, 0, 0, 0, 0, 0] 3 = .error .busError
    ∧ RbcpFault.busError ≠ RbcpFault.idMismatch := by
  exact ⟨rfl, by decide⟩

/-- C3 (amended): `_check_packet` raises the too-short Protocol error for
packets shorter than 8 bytes; for longer packets the version check comes
first, then the bus-error bit, then the id: in particular a packet of
length ≥ 8 with version 0xFF whose command byte has the low bit set raises
`RbcpBusError` even when the id byte also mismatches, and the Protocol
id-mismatch error is raised only when the bus-error bit is clear. -/
theorem checkPacket_cases (packet : List Nat) (waitId : Nat) :
    (packet.length < 8 → Rbcp.checkPacket packet waitId = .error .headerTooShort)
    ∧ (8 ≤ packet.length → packet.getD 0 0 ≠ 0xff →
        Rbcp.checkPacket packet waitId = .error .versionMismatch)
    ∧ (8 ≤ packet.length → packet.getD 0 0 = 0xff →
        (packet.getD 1 0) &&& 0x1 = 1 →
        Rbcp.checkPacket packet waitId = .error .busError)
    ∧ (8 ≤ packet.length → packet.getD 0 0 = 0xff →
        (packet.getD 1 0) &&& 0x1 ≠ 1 → packet.getD 2 0 ≠ waitId →
        Rbcp.checkPacket packet waitId = .error .idMismatch)
    ∧ (8 ≤ packet.length → packet.getD 0 0 = 0xff →
        (packet.getD 1 0) &&& 0x1 ≠ 1 → packet.getD 2 0 = waitId →
        Rbcp.checkPacket packet waitId = .ok ()) := by
  unfold Rbcp.checkPacket
  refine ⟨?_, ?_, ?_, ?_, ?_⟩
  · intro h
    simp [h]
  · intro h h0
    rw [if_neg (by omega), if_pos h0]
  · intro h h0 h1
    rw [if_neg (by omega), if_neg (fun hc => hc h0), if_pos h1]
  · intro h h0 h1 h2
    rw [if_neg (by omega), if_neg (fun hc => hc h0), if_neg h1, if_pos h2]
  · intro h h0 h1 h2
    rw [if_neg (by omega), if_neg (fun hc => hc h0), if_neg h1,
      if_neg (fun hc => hc h2)]

/-- Witness for C3 (amended) at a concrete packet. -/
theorem checkPacket_cases_witness :
    (8 ≤ ([0xff, 0xc8, 5, 0, 0, 0, 0, 0] : List Nat).length)
    ∧ Rbcp.checkPacket [0xff, 0xc8, 5, 0, 0, 0, 0, 0] 5 = .ok () :=
  ⟨by decide,
    (checkPacket_cases [0xff, 0xc8, 5, 0, 0, 0, 0, 0] 5).2.2.2.2
      (by decide) (by decide) (by decide) (by decide)⟩

/-- Case analysis of one DAQ receive iteration: either fewer than one
complete unit is buffered and everything is retained, or `on_daq_data` is
handed a positive whole-unit buffer and the sub-unit remainder is retained. -/
theorem daqStep_cases (d : Nat) (hd : 1 ≤ d) (pending chunk : List Nat) :
    ((daqStep d pending chunk).1 = none
      ∧ (daqStep d pending chunk).2 = pending ++ chunk
      ∧ (pending ++ chunk).length < d)
    ∨ (∃ out, (daqStep d pending chunk).1 = some out
        ∧ 0 < out.length ∧ out.length % d = 0
        ∧ out ++ (daqStep d pending chunk).2 = pending ++ chunk
        ∧ (daqStep d pending chunk).2.length < d) := by
  unfold daqStep
  by_cases hlen : (pending ++ chunk).length ≥ d
  · right
    by_cases hrest : (pending ++ chunk).length % d = 0
    · rw [if_pos hlen, if_pos hrest]
      refine ⟨pending ++ chunk, rfl, by omega, hrest, by simp, by simpa using hd⟩
    · rw [if_pos hlen, if_neg hrest]
      set L := (pending ++ chunk).length with hL
      have hmod : L % d < d := Nat.mod_lt _ (by omega)
      have hdiv : d * (L / d) + L % d = L := Nat.div_add_mod L d
      refine ⟨(pending ++ chunk).take (L - L % d), rfl, ?_, ?_, ?_, ?_⟩
      · rw [List.length_take]
        omega
      · rw [List.length_take]
        have : min (L - L % d) L = L - L % d := by omega
        rw [this]
        have h2 : L - L % d = d * (L / d) := by omega
        rw [h2]
        exact Nat.mul_mod_right _ _
      · exact List.take_append_drop _ _
      · rw [List.length_drop]
        omega
  · left
    rw [if_neg hlen]
    exact ⟨rfl, rfl, by omega⟩

/-- C1: with `data_unit = d ≥ 1`, over any sequence of received chunks every
buffer handed to `on_daq_data` has positive length that is an exact multiple
of `d`; no byte is lost or reordered (the emitted buffers followed by the
final partial buffer reassemble the stream, so trailing bytes are retained
and prepended to the next receive); and the retained partial buffer is
always shorter than one unit. -/
theorem daq_record_alignment (d : Nat) (hd : 1 ≤ d) (pending : List Nat)
    (hp : pending.length < d) (chunks : List (List Nat)) :
    (∀ out ∈ (daqRun d pending chunks).1, 0 < out.length ∧ out.length % d = 0)
    ∧ (daqRun d pending chunks).1.join ++ (daqRun d pending chunks).2
        = pending ++ chunks.join
    ∧ (daqRun d pending chunks).2.length < d := by
  induction chunks generalizing pending with
  | nil =>
    refine ⟨by simp [daqRun], by simp [daqRun], by simpa [daqRun] using hp⟩
  | cons chunk more ih =>
    rcases daqStep_cases d hd pending chunk with
      ⟨h1, h2, h3⟩ | ⟨out, h1, hpos, hmod, hjoin, hlt⟩
    · have hstep : daqStep d pending chunk = (none, pending ++ chunk) := by
        rw [Prod.ext_iff]
        exact ⟨h1, h2⟩
      have ihh := ih (pending ++ chunk) h3
      refine ⟨?_, ?_, ?_⟩
      · intro out hout
        apply ihh.1
        simpa [daqRun, hstep] using hout
      · have : daqRun d pending (chunk :: more)
            = daqRun d (pending ++ chunk) more := by
          simp [daqRun, hstep]
        rw [this, ihh.2.1]
        simp
      · have : daqRun d pending (chunk :: more)
            = daqRun d (pending ++ chunk) more := by
          simp [daqRun, hstep]
        rw [this]
        exact ihh.2.2
    · have hstep : daqStep d pending chunk
          = (some out, (daqStep d pending chunk).2) := by
        rw [Prod.ext_iff]
        exact ⟨h1, rfl⟩
      have ihh := ih (daqStep d pending chunk).2 hlt
      have hrun : daqRun d pending (chunk :: more)
          = (out :: (daqRun d (daqStep d pending chunk).2 more).1,
             (daqRun d (daqStep d pending chunk).2 more).2) := by
        conv_lhs => rw [daqRun, hstep]
      refine ⟨?_, ?_, ?_⟩
      · intro o ho
        rw [hrun] at ho
        rcases List.mem_cons.mp ho with rfl | ho2
        · exact ⟨hpos, hmod⟩
        · exact ihh.1 o ho2
      · rw [hrun]
        simp only [List.join_cons, List.append_assoc]
        rw [ihh.2.1, ← List.append_assoc, hjoin]
        simp
      · rw [hrun]
        exact ihh.2.2

/-- Witness for C1 at a concrete run (d = 8, chunks of 5 and 4 bytes). -/
theorem daq_record_alignment_witness :
    (1 ≤ 8) ∧ (([] : List Nat).length < 8)
    ∧ ((∀ out ∈ (daqRun 8 [] [[1, 2, 3, 4, 5], [6, 7, 8, 9]]).1,
          0 < out.length ∧ out.length % 8 = 0)
        ∧ (daqRun 8 [] [[1, 2, 3, 4, 5], [6, 7, 8, 9]]).1.join
            ++ (daqRun 8 [] [[1, 2, 3, 4, 5], [6, 7, 8, 9]]).2
            = [] ++ ([[1, 2, 3, 4, 5], [6, 7, 8, 9]] : List (List Nat)).join
        ∧ (daqRun 8 [] [[1, 2, 3, 4, 5], [6, 7, 8, 9]]).2.length < 8) :=
  ⟨by decide, by decide,
    daq_record_alignment 8 (by decide) [] (by decide) [[1, 2, 3, 4, 5], [6, 7, 8, 9]]⟩

/-- A found occurrence index from `bytes.find` is a real occurrence and is
the first one. -/
theorem firstOccur_spec (pat l : List Nat) (q : Nat)
    (h : firstOccur pat l = some q) :
    (l.drop q).take pat.length = pat
    ∧ ∀ q2 < q, (l.drop q2).take pat.length ≠ pat := by
  induction l generalizing q with
  | nil =>
    unfold firstOccur at h
    split at h
    · rename_i hlen
      have hq : q = 0 := by
        simpa using h.symm
      subst hq
      have hpat : pat = [] := List.length_eq_zero.mp hlen
      subst hpat
      exact ⟨rfl, fun q2 hq2 => absurd hq2 (by omega)⟩
    · cases h
  | cons b tl ih =>
    unfold firstOccur at h
    split at h
    · rename_i hguard
      have hq : q = 0 := by
        simpa using h.symm
      subst hq
      exact ⟨hguard, fun q2 hq2 => absurd hq2 (by omega)⟩
    · rename_i hguard
      rcases Option.map_eq_some'.mp h with ⟨q', hq', rfl⟩
      have ihh := ih q' hq'
      refine ⟨by simpa using ihh.1, ?_⟩
      intro q2 hq2
      cases q2 with
      | zero => simpa using hguard
      | succ q2' =>
        have := ihh.2 q2' (by omega)
        simpa using this

/-- When `bytes.find` reports no occurrence, there is none. -/
theorem firstOccur_none (pat l : List Nat) (h : firstOccur pat l = none) :
    ∀ q, (l.drop q).take pat.length ≠ pat := by
  induction l with
  | nil =>
    unfold firstOccur at h
    intro q
    split at h
    · cases h
    · rename_i hlen
      intro hc
      apply hlen
      have : (([] : List Nat).drop q).take pat.length = [] := by simp
      rw [this] at hc
      simp [← hc]
  | cons b tl ih =>
    unfold firstOccur at h
    split at h
    · cases h
    · rename_i hguard
      intro q
      cases q with
      | zero => simpa using hguard
      | succ q' =>
        have htl : firstOccur pat tl = none := by
          cases hh : firstOccur pat tl with
          | none => rfl
          | some v => rw [hh] at h; cases h
        simpa using ih htl q'

/-- C4 counterexample: for the buffer b"a\rb\r\nc" the claim predicts a split
at the lone \r with message b"a" (terminator excluded) and residual
b"b\r\nc"; the code instead finds the later \r\n first (it searches each
terminator over the whole buffer, \r\n with highest priority) and hands
`on_data` the bytes up to and including it. -/
theorem sessionStep_crlf_priority :
    sessionStep [] [97, 13, 98, 13, 10, 99]
      = (some [97, 13, 98, 13, 10], [99], some [13, 10])
    ∧ (some [97, 13, 98, 13, 10] : Option (List Nat)) ≠ some [97] := by
  exact ⟨rfl, by decide⟩

/-- C4 (amended): the buffered stream is split at the first occurrence of
\r\n whenever the buffer contains \r\n anywhere; otherwise at the first \n;
otherwise at the first \r (so an earlier lone \r loses to a later \r\n); the
reported position is the first occurrence of the winning terminator; the
message passed to `on_data` extends through and INCLUDES the terminator; and
the bytes after the terminator are preserved as the residual for the next
frame (message ++ residual reassembles the buffer). -/
theorem sessionStep_framing (l restB chunk : List Nat) (p : Nat) :
    (firstOccur [13, 10] l = some p →
      findDelimiterPosition l = some (p + 2, [13, 10]))
    ∧ (firstOccur [13, 10] l = none → firstOccur [10] l = some p →
        findDelimiterPosition l = some (p + 1, [10]))
    ∧ (firstOccur [13, 10] l = none → firstOccur [10] l = none →
        firstOccur [13] l = some p →
        findDelimiterPosition l = some (p + 1, [13]))
    ∧ (firstOccur [13, 10] l = none → firstOccur [10] l = none →
        firstOccur [13] l = none → findDelimiterPosition l = none)
    ∧ (∀ pat q, firstOccur pat l = some q →
        (l.drop q).take pat.length = pat
        ∧ ∀ q2 < q, (l.drop q2).take pat.length ≠ pat)
    ∧ (∀ pat, firstOccur pat l = none →
        ∀ q, (l.drop q).take pat.length ≠ pat)
    ∧ (∀ pos sep, findDelimiterPosition (restB ++ chunk) = some (pos, sep) →
        sessionStep restB chunk
          = (some ((restB ++ chunk).take pos), (restB ++ chunk).drop pos,
             some sep)
        ∧ (restB ++ chunk).take pos ++ (restB ++ chunk).drop pos
            = restB ++ chunk) := by
  refine ⟨?_, ?_, ?_, ?_, ?_, ?_, ?_⟩
  · intro h
    unfold findDelimiterPosition
    rw [h]
  · intro h h10
    unfold findDelimiterPosition
    rw [h, h10]
  · intro h h10 h13
    unfold findDelimiterPosition
    rw [h, h10, h13]
  · intro h h10 h13
    unfold findDelimiterPosition
    rw [h, h10, h13]
  · exact fun pat q h => firstOccur_spec pat l q h
  · exact fun pat h => firstOccur_none pat l h
  · intro pos sep h
    refine ⟨?_, List.take_append_drop _ _⟩
    unfold sessionStep
    simp only
    rw [h]

/-- Witness for C4 (amended) on the counterexample buffer. -/
theorem sessionStep_framing_witness :
    firstOccur [13, 10] [97, 13, 98, 13, 10, 99] = some 3
    ∧ findDelimiterPosition [97, 13, 98, 13, 10, 99] = some (3 + 2, [13, 10]) :=
  ⟨by decide,
    (sessionStep_framing [97, 13, 98, 13, 10, 99] [] [] 3).1 (by decide)⟩

/-- C8: a fresh default generator (counter 0) produces, for
`data_unit_count = 1`, a record of 8 bytes none of which is the 0xA5
sentinel, and for the default `data_unit_count = 2` a 16-byte record whose
second data-unit is entirely zero (no sentinel at offset 8, no counter at
offsets 12..15): the loop `range(0, data_unit_count - 1)` stamps only the
first `n - 1` units and advances the counter `n - 1` times (here: to 1, not
2).  The claim's per-unit sentinel/counter layout fails on the record's last
unit.  The counter wrap itself behaves as claimed: a unit stamped at counter
value 0xFFFFFFFE resets the counter to 0. -/
theorem createData_last_unit_unstamped :
    createData 0 1 = (List.replicate 8 0, 0)
    ∧ (createData 0 2).1
        = [0xa5, 0, 0, 0, 0, 0, 0, 0, 0, 0, 0, 0, 0, 0, 0, 0]
    ∧ (createData 0 2).1.length = 8 * 2
    ∧ (createData 0 2).1.getD 8 0 ≠ 0xa5
    ∧ (createData 0 2).2 = 1
    ∧ (createData 0xfffffffe 2).2 = 0
    ∧ (createData 0xfffffffe 2).1.take 8 = [0xa5, 0, 0, 0, 255, 255, 255, 254] := by
  exact ⟨by decide, by decide, by decide, by decide, by decide, by decide,
    by decide⟩

/-- C7: `write_bytes` passes each registered write callback
`data_bytes[write_address - self._start_address]` instead of
`data_bytes[write_address - address]`.  On a region [0, 4) with a callback
at byte 2, the in-range write `write_bytes(2, [7])` indexes `data_bytes[2]`
of a 1-byte buffer and dies with `IndexError` instead of invoking the
callback with (2, 7) and committing; and on a region [0, 4) with a callback
at byte 1, `write_bytes(1, [7, 8])` invokes the callback with value 8
(`data_bytes[1]`) although the byte being written at address 1 is
`data_bytes[0] = 7`. -/
theorem writeBytes_callback_wrong_index :
    VirtualRegister.writeBytes ⟨0, [0, 0, 0, 0], [], [(2, 0)]⟩ 2 [7]
      = .error .indexError
    ∧ VirtualRegister.writeBytes ⟨0, [0, 0, 0, 0], [], [(1, 5)]⟩ 1 [7, 8]
      = .ok (⟨0, [0, 7, 8, 0], [], [(1, 5)]⟩, [(1, 5, 8)])
    ∧ ([7, 8] : List Nat).getD (1 - 1) 0 = 7
    ∧ (8 : Nat) ≠ 7 :=
  ⟨rfl, rfl, rfl, by decide⟩

/-- Every read-callback invocation recorded by the trace is an entry of the
callback dictionary it was built from. -/
theorem readTrace_mem (rcb : List (Nat × Nat)) (addrs : List Nat) :
    ∀ p ∈ readTrace rcb addrs, lookupCb rcb p.1 = some p.2 := by
  induction addrs with
  | nil => simp [readTrace]
  | cons h tl ih =>
    intro p hp
    unfold readTrace at hp
    cases hl : lookupCb rcb h with
    | none =>
      rw [hl] at hp
      exact ih p hp
    | some cid =>
      rw [hl] at hp
      rcases List.mem_cons.mp hp with rfl | hp2
      · exact hl
      · exact ih p hp2

/-- Every write-callback invocation recorded by a successful trace is an
entry of the callback dictionary it was built from, and carries the value
`data_bytes[address - start]` as in the source. -/
theorem writeTrace_mem (wcb : List (Nat × Nat)) (startAddr : Nat)
    (dataBytes : List Nat) (addrs : List Nat) (tr : List (Nat × Nat × Nat))
    (h : writeTrace wcb startAddr dataBytes addrs = some tr) :
    ∀ p ∈ tr, lookupCb wcb p.1 = some p.2.1
      ∧ dataBytes.get? (p.1 - startAddr) = some p.2.2 := by
  induction addrs generalizing tr with
  | nil =>
    unfold writeTrace at h
    cases h
    simp
  | cons a tl ih =>
    unfold writeTrace at h
    cases hl : lookupCb wcb a with
    | none =>
      rw [hl] at h
      exact ih tr h
    | some cid =>
      rw [hl] at h
      cases hv : dataBytes.get? (a - startAddr) with
      | none =>
        rw [hv] at h
        cases h
      | some v =>
        rw [hv] at h
        rcases Option.map_eq_some'.mp h with ⟨rest, hrest, rfl⟩
        intro p hp
        rcases List.mem_cons.mp hp with rfl | hp2
        · exact ⟨hl, hv⟩
        · exact ih rest hrest p hp2

/-- C10: when `merge` absorbs region `s` into region `r`, the surviving
region keeps `r`'s read and write callback dictionaries unchanged and
discards `s`'s entirely: every callback invoked by a subsequent `read_bytes`
or `write_bytes` on the merged region is one registered in `r`'s dictionary,
and a callback registered only in `s`'s dictionary is never invoked, even at
the byte address where it was registered. -/
theorem merge_discards_absorbed_callbacks (r s m : VirtualRegister)
    (h : r.merge s = some m) :
    m.rcb = r.rcb ∧ m.wcb = r.wcb
    ∧ (∀ a len bytes tr, m.readBytes a len = some (bytes, tr) →
        ∀ p ∈ tr, lookupCb r.rcb p.1 = some p.2)
    ∧ (∀ a data m2 tr, m.writeBytes a data = .ok (m2, tr) →
        ∀ p ∈ tr, lookupCb r.wcb p.1 = some p.2.1)
    ∧ (∀ a len bytes tr h2 cid, m.readBytes a len = some (bytes, tr) →
        lookupCb s.rcb h2 = some cid → lookupCb r.rcb h2 = none →
        (h2, cid) ∉ tr) := by
  have hfields : m.rcb = r.rcb ∧ m.wcb = r.wcb := by
    unfold VirtualRegister.merge at h
    split at h
    · split at h
      · cases h
      · split at h
        · cases h
        · rcases Option.some.inj h with rfl
          exact ⟨rfl, rfl⟩
    · cases h
  refine ⟨hfields.1, hfields.2, ?_, ?_, ?_⟩
  · intro a len bytes tr hread p hp
    unfold VirtualRegister.readBytes at hread
    split at hread
    · have h2 := Option.some.inj hread
      have htr : tr = readTrace m.rcb (List.range' a len) := by
        have := congrArg Prod.snd h2
        simpa using this.symm
      subst htr
      have := readTrace_mem m.rcb (List.range' a len) p hp
      rwa [hfields.1] at this
    · cases hread
  · intro a data m2 tr hwrite p hp
    unfold VirtualRegister.writeBytes at hwrite
    split at hwrite
    · split at hwrite
      · cases hwrite
      · rename_i tr2 htr2
        rcases Except.ok.inj hwrite with h2
        have htr : tr = tr2 := by
          have := congrArg Prod.snd h2
          simpa using this.symm
        subst htr
        rw [← hfields.2]
        exact (writeTrace_mem m.wcb m.start data (List.range' a data.length)
          tr htr2 p hp).1
    · cases hwrite
  · intro a len bytes tr h2 cid hread hs hr hmem
    unfold VirtualRegister.readBytes at hread
    split at hread
    · rcases Option.some.inj hread with heq
      have htr : tr = readTrace m.rcb (List.range' a len) := by
        have := congrArg Prod.snd heq
        simpa using this.symm
      have := readTrace_mem m.rcb (List.range' a len) (h2, cid) (htr ▸ hmem)
      rw [hfields.1] at this
      rw [hr] at this
      cases this
    · cases hread

/-- Extracting byte `k/8` the way `_make_header` does: masking with a byte
mask shifted to position `k`, shifting down, and masking again, equals
`x / 2^k % 256`. -/
theorem mask_extract (x k : Nat) :
    ((x &&& (255 <<< k)) >>> k) &&& 255 = x / 2 ^ k % 256 := by
  have h1 : x / 2 ^ k = x >>> k := (Nat.shiftRight_eq_div_pow x k).symm
  have h2 : (255 : Nat) = 2 ^ 8 - 1 := by norm_num
  have h3 : (256 : Nat) = 2 ^ 8 := by norm_num
  rw [h1, h2, h3]
  apply Nat.eq_of_testBit_eq
  intro i
  simp only [Nat.testBit_and, Nat.testBit_shiftRight, Nat.testBit_shiftLeft,
    Nat.testBit_two_pow_sub_one, Nat.testBit_mod_two_pow, ge_iff_le,
    Nat.add_sub_cancel_left]
  have hk : (decide (k ≤ k + i)) = true := by
    simp
  rw [hk]
  by_cases hi : i < 8
  · simp [hi, Bool.and_comm]
  · simp [hi]

/-- The high-address-byte mask expression of the header builders. -/
theorem mask_byte24 (x : Nat) :
    ((x &&& 0xff000000) >>> 24) &&& 0xff = x / 16777216 % 256 := by
  have e : (0xff000000 : Nat) = 255 <<< 24 := by
    norm_num [Nat.shiftLeft_eq]
  rw [e, mask_extract]
  norm_num

/-- The second address-byte mask expression of the header builders. -/
theorem mask_byte16 (x : Nat) :
    ((x &&& 0x00ff0000) >>> 16) &&& 0xff = x / 65536 % 256 := by
  have e : (0x00ff0000 : Nat) = 255 <<< 16 := by
    norm_num [Nat.shiftLeft_eq]
  rw [e, mask_extract]
  norm_num

/-- The third address-byte mask expression of the header builders. -/
theorem mask_byte8 (x : Nat) :
    ((x &&& 0x0000ff00) >>> 8) &&& 0xff = x / 256 % 256 := by
  have e : (0x0000ff00 : Nat) = 255 <<< 8 := by
    norm_num [Nat.shiftLeft_eq]
  rw [e, mask_extract]
  norm_num

/-- The low address-byte mask expression of the header builders. -/
theorem mask_byte0 (x : Nat) :
    ((x &&& 0x000000ff) >>> 0) &&& 0xff = x % 256 := by
  have h := mask_extract x 0
  simpa using h

/-- The server header builder, evaluated: on in-range id and length bytes it
packs the fields with the address in big-endian order. -/
theorem makeHeaderSrv_eq (rw : String) (pid addr len : Nat)
    (hpid : pid ≤ 255) (hlen : len ≤ 255) :
    makeHeaderSrv rw pid addr len
      = some [0xff,
          if rw = "r" then 0xc8 else if rw = "w" then 0x88
          else if rw = "re" then 0xc9 else if rw = "we" then 0x89 else 0,
          pid, len, addr / 16777216 % 256, addr / 65536 % 256,
          addr / 256 % 256, addr % 256] := by
  unfold makeHeaderSrv
  rw [if_pos ⟨hpid, hlen⟩, mask_byte24, mask_byte16, mask_byte8, mask_byte0]

/-- The read-success reply header. -/
theorem makeHeaderSrv_r (pid addr len : Nat) (hpid : pid ≤ 255)
    (hlen : len ≤ 255) :
    makeHeaderSrv ("r") pid addr len
      = some [0xff, 0xc8, pid, len, addr / 16777216 % 256, addr / 65536 % 256,
          addr / 256 % 256, addr % 256] := by
  rw [makeHeaderSrv_eq ("r") pid addr len hpid hlen]
  rfl

/-- The read-bus-error reply header. -/
theorem makeHeaderSrv_re (pid addr len : Nat) (hpid : pid ≤ 255)
    (hlen : len ≤ 255) :
    makeHeaderSrv ("re") pid addr len
      = some [0xff, 0xc9, pid, len, addr / 16777216 % 256, addr / 65536 % 256,
          addr / 256 % 256, addr % 256] := by
  rw [makeHeaderSrv_eq ("re") pid addr len hpid hlen]
  rfl

/-- The write-success reply header. -/
theorem makeHeaderSrv_w (pid addr len : Nat) (hpid : pid ≤ 255)
    (hlen : len ≤ 255) :
    makeHeaderSrv ("w") pid addr len
      = some [0xff, 0x88, pid, len, addr / 16777216 % 256, addr / 65536 % 256,
          addr / 256 % 256, addr % 256] := by
  rw [makeHeaderSrv_eq ("w") pid addr len hpid hlen]
  rfl

/-- The write-bus-error reply header. -/
theorem makeHeaderSrv_we (pid addr len : Nat) (hpid : pid ≤ 255)
    (hlen : len ≤ 255) :
    makeHeaderSrv ("we") pid addr len
      = some [0xff, 0x89, pid, len, addr / 16777216 % 256, addr / 65536 % 256,
          addr / 256 % 256, addr % 256] := by
  rw [makeHeaderSrv_eq ("we") pid addr len hpid hlen]
  rfl

/-- Unpacking `>I` then repacking the four big-endian address bytes is the
identity on bytes. -/
theorem be4_roundtrip (b4 b5 b6 b7 : Nat) (h4 : b4 ≤ 255) (h5 : b5 ≤ 255)
    (h6 : b6 ≤ 255) (h7 : b7 ≤ 255) :
    (b4 * 16777216 + b5 * 65536 + b6 * 256 + b7) / 16777216 % 256 = b4
    ∧ (b4 * 16777216 + b5 * 65536 + b6 * 256 + b7) / 65536 % 256 = b5
    ∧ (b4 * 16777216 + b5 * 65536 + b6 * 256 + b7) / 256 % 256 = b6
    ∧ (b4 * 16777216 + b5 * 65536 + b6 * 256 + b7) % 256 = b7 :=
  ⟨by omega, by omega, by omega, by omega⟩

/-- C6 counterexample: a read request with id 5, length 4, address 0 against
a bank that does not contain address 0 draws the bus-error reply
[0xff, 0xc9, 5, 0, 0, 0, 0, 0]: the id and address are echoed, but the
length field is 0 — the length of the (empty) residual payload — not the
original request length 4, contrary to the claim that bus-error replies also
echo the length header field. -/
theorem processDatagram_buserror_length_not_echoed :
    processDatagram [⟨100, [1, 2, 3], [], []⟩] [0xff, 0xc0, 5, 4, 0, 0, 0, 0]
      = some ([0xff, 0xc9, 5, 0, 0, 0, 0, 0], [⟨100, [1, 2, 3], [], []⟩])
    ∧ ([0xff, 0xc9, 5, 0, 0, 0, 0, 0] : List Nat).getD 3 0 = 0
    ∧ ([0xff, 0xc0, 5, 4, 0, 0, 0, 0] : List Nat).getD 3 0 = 4
    ∧ (0 : Nat) ≠ 4 :=
  ⟨rfl, rfl, rfl, by decide⟩

/-- C6 (amended): for every well-formed request datagram (length ≥ 8,
version byte 0xFF, command byte 0xC0 or 0x80) for which the server produces
a reply, the reply echoes the request's packet id and its four address bytes;
the length header field is echoed on the success replies (0xC8/0x88), while
on the bus-error replies (0xC9/0x89) the length field is the length of the
residual payload supplied by the requester — not the original length — and
the reply payload is that residual payload. -/
theorem processDatagram_echo (bank : List VirtualRegister)
    (b2 b3 b4 b5 b6 b7 : Nat) (payload : List Nat)
    (h2 : b2 ≤ 255) (h3 : b3 ≤ 255) (h4 : b4 ≤ 255) (h5 : b5 ≤ 255)
    (h6 : b6 ≤ 255) (h7 : b7 ≤ 255) (cmd : Nat)
    (hcmd : cmd = 0xc0 ∨ cmd = 0x80)
    (reply : List Nat) (bank2 : List VirtualRegister)
    (h : processDatagram bank
        (0xff :: cmd :: b2 :: b3 :: b4 :: b5 :: b6 :: b7 :: payload)
      = some (reply, bank2)) :
    reply.getD 2 0 = b2
    ∧ reply.getD 4 0 = b4 ∧ reply.getD 5 0 = b5 ∧ reply.getD 6 0 = b6
    ∧ reply.getD 7 0 = b7
    ∧ (reply.getD 1 0 = 0xc8 ∨ reply.getD 1 0 = 0x88
        ∨ reply.getD 1 0 = 0xc9 ∨ reply.getD 1 0 = 0x89)
    ∧ ((reply.getD 1 0 = 0xc8 ∨ reply.getD 1 0 = 0x88) → reply.getD 3 0 = b3)
    ∧ ((reply.getD 1 0 = 0xc9 ∨ reply.getD 1 0 = 0x89) →
        reply.getD 3 0 = payload.length ∧ reply.drop 8 = payload) := by
  have hbytes := be4_roundtrip b4 b5 b6 b7 h4 h5 h6 h7
  rcases hcmd with rfl | rfl
  · unfold processDatagram at h
    rw [if_neg (by simp only [List.length_cons]; omega)] at h
    rw [if_neg (by intro hc; exact hc rfl)] at h
    rw [if_neg (by intro hc; exact hc.1 rfl)] at h
    rw [if_pos (show
      (0xff :: 0xc0 :: b2 :: b3 :: b4 :: b5 :: b6 :: b7 :: payload).getD 1 0
        = 0xc0 from rfl)] at h
    have ha : rbcpAddrOf (0xff :: 0xc0 :: b2 :: b3 :: b4 :: b5 :: b6 :: b7 :: payload)
        = b4 * 16777216 + b5 * 65536 + b6 * 256 + b7 := rfl
    have hg2 : (0xff :: 0xc0 :: b2 :: b3 :: b4 :: b5 :: b6 :: b7 :: payload).getD 2 0
        = b2 := rfl
    have hg3 : (0xff :: 0xc0 :: b2 :: b3 :: b4 :: b5 :: b6 :: b7 :: payload).getD 3 0
        = b3 := rfl
    have hdr8 : (0xff :: 0xc0 :: b2 :: b3 :: b4 :: b5 :: b6 :: b7 :: payload).drop 8
        = payload := rfl
    rw [ha, hg2, hg3, hdr8] at h
    cases hr : readRegisters bank (b4 * 16777216 + b5 * 65536 + b6 * 256 + b7) b3 with
    | some readData =>
      rw [hr, makeHeaderSrv_r b2 _ b3 h2 h3] at h
      simp only [Option.map_some', Option.some.injEq, Prod.mk.injEq] at h
      obtain ⟨hrep, hbank⟩ := h
      subst hrep
      refine ⟨rfl, hbytes.1, hbytes.2.1, hbytes.2.2.1, hbytes.2.2.2,
        Or.inl rfl, fun _ => rfl, ?_⟩
      intro hbad
      rcases hbad with hb | hb <;> simp at hb
    | none =>
      rw [hr] at h
      by_cases hple : payload.length ≤ 255
      · rw [makeHeaderSrv_re b2 _ payload.length h2 hple] at h
        simp only [Option.map_some', Option.some.injEq, Prod.mk.injEq] at h
        obtain ⟨hrep, hbank⟩ := h
        subst hrep
        refine ⟨rfl, hbytes.1, hbytes.2.1, hbytes.2.2.1, hbytes.2.2.2,
          Or.inr (Or.inr (Or.inl rfl)), ?_, fun _ => ⟨rfl, rfl⟩⟩
        intro hbad
        rcases hbad with hb | hb <;> simp at hb
      · have hnone : makeHeaderSrv ("re") b2
            (b4 * 16777216 + b5 * 65536 + b6 * 256 + b7) payload.length = none := by
          unfold makeHeaderSrv
          rw [if_neg]
          intro hc
          exact hple hc.2
        rw [hnone] at h
        simp at h
  · unfold processDatagram at h
    rw [if_neg (by simp only [List.length_cons]; omega)] at h
    rw [if_neg (by intro hc; exact hc rfl)] at h
    rw [if_neg (by intro hc; exact hc.2 rfl)] at h
    rw [if_neg (show
      ¬ (0xff :: 0x80 :: b2 :: b3 :: b4 :: b5 :: b6 :: b7 :: payload).getD 1 0
        = 0xc0 by intro hc; simp at hc)] at h
    have ha : rbcpAddrOf (0xff :: 0x80 :: b2 :: b3 :: b4 :: b5 :: b6 :: b7 :: payload)
        = b4 * 16777216 + b5 * 65536 + b6 * 256 + b7 := rfl
    have hg2 : (0xff :: 0x80 :: b2 :: b3 :: b4 :: b5 :: b6 :: b7 :: payload).getD 2 0
        = b2 := rfl
    have hg3 : (0xff :: 0x80 :: b2 :: b3 :: b4 :: b5 :: b6 :: b7 :: payload).getD 3 0
        = b3 := rfl
    have hdr8 : (0xff :: 0x80 :: b2 :: b3 :: b4 :: b5 :: b6 :: b7 :: payload).drop 8
        = payload := rfl
    rw [ha, hg2, hg3, hdr8] at h
    cases hw : writeRegisters bank (b4 * 16777216 + b5 * 65536 + b6 * 256 + b7)
        (payload.take b3) with
    | ok res =>
      obtain ⟨bank3, bytes⟩ := res
      rw [hw, makeHeaderSrv_w b2 _ b3 h2 h3] at h
      simp only [Option.map_some', Option.some.injEq, Prod.mk.injEq] at h
      obtain ⟨hrep, hbank⟩ := h
      subst hrep
      refine ⟨rfl, hbytes.1, hbytes.2.1, hbytes.2.2.1, hbytes.2.2.2,
        Or.inr (Or.inl rfl), fun _ => rfl, ?_⟩
      intro hbad
      rcases hbad with hb | hb <;> simp at hb
    | error e =>
      cases e with
      | crash =>
        rw [hw] at h
        simp at h
      | outOfRange =>
        rw [hw] at h
        by_cases hple : payload.length ≤ 255
        · rw [makeHeaderSrv_we b2 _ payload.length h2 hple] at h
          simp only [Option.map_some', Option.some.injEq, Prod.mk.injEq] at h
          obtain ⟨hrep, hbank⟩ := h
          subst hrep
          refine ⟨rfl, hbytes.1, hbytes.2.1, hbytes.2.2.1, hbytes.2.2.2,
            Or.inr (Or.inr (Or.inr rfl)), ?_, fun _ => ⟨rfl, rfl⟩⟩
          intro hbad
          rcases hbad with hb | hb <;> simp at hb
        · have hnone : makeHeaderSrv ("we") b2
              (b4 * 16777216 + b5 * 65536 + b6 * 256 + b7) payload.length
              = none := by
            unfold makeHeaderSrv
            rw [if_neg]
            intro hc
            exact hple hc.2
          rw [hnone] at h
          simp at h

/-- Witness for C6 (amended): a successful one-byte read at the start of a
small region echoes id, address bytes and length. -/
theorem processDatagram_echo_witness :
    ([0xff, 0xc8, 9, 1, 0, 0, 0, 50, 7] : List Nat).getD 2 0 = 9
    ∧ ([0xff, 0xc8, 9, 1, 0, 0, 0, 50, 7] : List Nat).getD 4 0 = 0
    ∧ ([0xff, 0xc8, 9, 1, 0, 0, 0, 50, 7] : List Nat).getD 5 0 = 0
    ∧ ([0xff, 0xc8, 9, 1, 0, 0, 0, 50, 7] : List Nat).getD 6 0 = 0
    ∧ ([0xff, 0xc8, 9, 1, 0, 0, 0, 50, 7] : List Nat).getD 7 0 = 50
    ∧ (([0xff, 0xc8, 9, 1, 0, 0, 0, 50, 7] : List Nat).getD 1 0 = 0xc8
        ∨ ([0xff, 0xc8, 9, 1, 0, 0, 0, 50, 7] : List Nat).getD 1 0 = 0x88
        ∨ ([0xff, 0xc8, 9, 1, 0, 0, 0, 50, 7] : List Nat).getD 1 0 = 0xc9
        ∨ ([0xff, 0xc8, 9, 1, 0, 0, 0, 50, 7] : List Nat).getD 1 0 = 0x89)
    ∧ ((([0xff, 0xc8, 9, 1, 0, 0, 0, 50, 7] : List Nat).getD 1 0 = 0xc8
        ∨ ([0xff, 0xc8, 9, 1, 0, 0, 0, 50, 7] : List Nat).getD 1 0 = 0x88) →
        ([0xff, 0xc8, 9, 1, 0, 0, 0, 50, 7] : List Nat).getD 3 0 = 1)
    ∧ ((([0xff, 0xc8, 9, 1, 0, 0, 0, 50, 7] : List Nat).getD 1 0 = 0xc9
        ∨ ([0xff, 0xc8, 9, 1, 0, 0, 0, 50, 7] : List Nat).getD 1 0 = 0x89) →
        ([0xff, 0xc8, 9, 1, 0, 0, 0, 50, 7] : List Nat).getD 3 0
          = ([] : List Nat).length
        ∧ ([0xff, 0xc8, 9, 1, 0, 0, 0, 50, 7] : List Nat).drop 8 = []) :=
  processDatagram_echo [⟨50, [7, 8], [], []⟩] 9 1 0 0 0 50 []
    (by decide) (by decide) (by decide) (by decide) (by decide) (by decide)
    0xc0 (Or.inl rfl) [0xff, 0xc8, 9, 1, 0, 0, 0, 50, 7]
    [⟨50, [7, 8], [], []⟩] rfl

/-- Witness for C10 at a concrete merge of [0,2) (callbacks kept) with the
adjacent [2,3) (callback at byte 2 discarded). -/
theorem merge_discards_absorbed_callbacks_witness :
    VirtualRegister.merge ⟨0, [1, 2], [(0, 11)], [(1, 12)]⟩
        ⟨2, [3], [(2, 21)], []⟩
      = some ⟨0, [1, 2, 3], [(0, 11)], [(1, 12)]⟩
    ∧ (VirtualRegister.mk 0 [1, 2, 3] [(0, 11)] [(1, 12)]).rcb = [(0, 11)] :=
  ⟨rfl,
    (merge_discards_absorbed_callbacks ⟨0, [1, 2], [(0, 11)], [(1, 12)]⟩
      ⟨2, [3], [(2, 21)], []⟩ ⟨0, [1, 2, 3], [(0, 11)], [(1, 12)]⟩ rfl).1⟩

/-- The `check_address_range` test as a proposition. -/
theorem checkAddressRange_iff (r : VirtualRegister) (a len : Nat) :
    r.checkAddressRange a len = true ↔
      (r.start ≤ a ∧ a + len ≤ r.start + r.mem.length) := by
  unfold VirtualRegister.checkAddressRange
  simp only [Bool.and_eq_true, decide_eq_true_eq, ge_iff_le]

/-- With no write callbacks registered, the callback loop is empty and
succeeds. -/
theorem writeTrace_nil_cb (st : Nat) (data : List Nat) (addrs : List Nat) :
    writeTrace [] st data addrs = some [] := by
  induction addrs with
  | nil => rfl
  | cons a tl ih =>
    unfold writeTrace
    simp only [lookupCb]
    exact ih

/-- Evaluating `write_bytes` on a callback-free register: an in-range write splices the
data into memory. -/
theorem writeBytes_no_cb (st : Nat) (mem0 : List Nat) (a : Nat)
    (data : List Nat) (hchk : st ≤ a ∧ a + data.length ≤ st + mem0.length) :
    (VirtualRegister.mk st mem0 [] []).writeBytes a data
      = .ok (VirtualRegister.mk st (listWrite mem0 (a - st) data) [] [], []) := by
  unfold VirtualRegister.writeBytes
  rw [if_pos ((checkAddressRange_iff (VirtualRegister.mk st mem0 [] [])
    a data.length).mpr hchk)]
  rw [writeTrace_nil_cb st data (List.range' a data.length)]

/-- Splicing inside the bounds preserves the length. -/
theorem length_listWrite (base : List Nat) (off : Nat) (data : List Nat)
    (h : off + data.length ≤ base.length) :
    (listWrite base off data).length = base.length := by
  unfold listWrite
  simp only [List.length_append, List.length_take, List.length_drop]
  omega

/-- Indexing a splice: inside the written window it reads the new data,
outside it reads the base. -/
theorem getElem?_listWrite (base : List Nat) (off : Nat) (data : List Nat)
    (i : Nat) (h : off + data.length ≤ base.length) :
    (listWrite base off data)[i]? =
      if i < off then base[i]?
      else if i < off + data.length then data[i - off]?
      else base[i]? := by
  have hto : (base.take off).length = off := by
    rw [List.length_take]
    omega
  have htd : (base.take off ++ data).length = off + data.length := by
    rw [List.length_append, hto]
  unfold listWrite
  by_cases h1 : i < off
  · rw [if_pos h1,
      List.getElem?_append_left (by rw [htd]; omega),
      List.getElem?_append_left (by rw [hto]; omega)]
    exact List.getElem?_take_of_lt h1
  · rw [if_neg h1]
    by_cases h2 : i < off + data.length
    · rw [if_pos h2,
        List.getElem?_append_left (by rw [htd]; omega),
        List.getElem?_append_right (by rw [hto]; omega), hto]
    · rw [if_neg h2,
        List.getElem?_append_right (by rw [htd]; omega), htd,
        List.getElem?_drop]
      congr 1
      omega

/-- The merge guard (`is_neighbor or is_intersect`) as a proposition. -/
theorem mergeCond_iff (r s : VirtualRegister) :
    (r.isNeighbor s || r.isIntersect s) = true ↔
      (r.start + r.mem.length = s.start ∨ s.start + s.mem.length = r.start
        ∨ (r.start ≤ s.start ∧ s.start < r.start + r.mem.length)
        ∨ (s.start < r.start ∧ r.start < s.start + s.mem.length)) := by
  unfold VirtualRegister.isNeighbor VirtualRegister.isIntersect
  by_cases hle : r.start ≤ s.start
  · rw [if_pos hle]
    simp only [Bool.or_eq_true, decide_eq_true_eq]
    omega
  · rw [if_neg hle]
    simp only [Bool.or_eq_true, decide_eq_true_eq]
    omega

/-- Shape of a successful `merge`: the guard held, and the result is `r`
relocated to the minimum start with the spliced span as memory (callbacks
are `r`'s own, per C10). -/
theorem merge_some_eq (r s m : VirtualRegister) (h : r.merge s = some m) :
    (r.isNeighbor s || r.isIntersect s) = true
    ∧ m = { r with start := min r.start s.start, mem := mergeMem r s } := by
  unfold VirtualRegister.merge at h
  by_cases hc : (r.isNeighbor s || r.isIntersect s) = true
  · refine ⟨hc, ?_⟩
    rw [if_pos hc] at h
    have hw1 := writeBytes_no_cb (min r.start s.start)
      (List.replicate
        (max (r.start + r.mem.length) (s.start + s.mem.length)
          - min r.start s.start) 0)
      r.start r.mem
      (by
        refine ⟨by omega, ?_⟩
        simp only [List.length_replicate]
        omega)
    simp only [hw1] at h
    have hw2 := writeBytes_no_cb (min r.start s.start)
      (listWrite
        (List.replicate
          (max (r.start + r.mem.length) (s.start + s.mem.length)
            - min r.start s.start) 0)
        (r.start - min r.start s.start) r.mem)
      s.start s.mem
      (by
        refine ⟨by omega, ?_⟩
        rw [length_listWrite _ _ _
          (by simp only [List.length_replicate]; omega)]
        simp only [List.length_replicate]
        omega)
    simp only [hw2] at h
    have := Option.some.inj h
    rw [← this]
    rfl
  · rw [if_neg hc] at h
    cases h

/-- Length of the merged memory: the whole span. -/
theorem mergeMem_length (r s : VirtualRegister) :
    (mergeMem r s).length
      = max (r.start + r.mem.length) (s.start + s.mem.length)
        - min r.start s.start := by
  unfold mergeMem
  rw [length_listWrite _ _ _
    (by
      rw [length_listWrite _ _ _
        (by simp only [List.length_replicate]; omega)]
      simp only [List.length_replicate]
      omega)]
  rw [length_listWrite _ _ _ (by simp only [List.length_replicate]; omega)]
  simp only [List.length_replicate]

/-- After the first interior write, the span holds `r`'s byte wherever `r`
covers. -/
theorem mergeMem_inner_byte (r s : VirtualRegister) (a : Nat)
    (hr : covers r a) :
    (listWrite
      (List.replicate
        (max (r.start + r.mem.length) (s.start + s.mem.length)
          - min r.start s.start) 0)
      (r.start - min r.start s.start) r.mem)[a - min r.start s.start]?
      = r.mem[a - r.start]? := by
  obtain ⟨hr1, hr2⟩ := hr
  rw [getElem?_listWrite _ _ _ _
    (by simp only [List.length_replicate]; omega)]
  rw [if_neg (by omega), if_pos (by omega)]
  congr 1
  omega

/-- Where `s` covers, the merged memory holds `s`'s byte (`s` wins on
overlap, having been written second). -/
theorem mergeMem_byte_s (r s : VirtualRegister) (a : Nat) (hs : covers s a) :
    (mergeMem r s)[a - min r.start s.start]? = s.mem[a - s.start]? := by
  obtain ⟨hs1, hs2⟩ := hs
  unfold mergeMem
  rw [getElem?_listWrite _ _ _ _
    (by
      rw [length_listWrite _ _ _
        (by simp only [List.length_replicate]; omega)]
      simp only [List.length_replicate]
      omega)]
  rw [if_neg (by omega), if_pos (by omega)]
  congr 1
  omega

/-- Where only `r` covers, the merged memory holds `r`'s byte. -/
theorem mergeMem_byte_r (r s : VirtualRegister) (a : Nat) (hr : covers r a)
    (hns : ¬ covers s a) :
    (mergeMem r s)[a - min r.start s.start]? = r.mem[a - r.start]? := by
  have hr' := hr
  obtain ⟨hr1, hr2⟩ := hr'
  have hs : a < s.start ∨ s.start + s.mem.length ≤ a := by
    by_contra hcon
    push_neg at hcon
    exact hns ⟨hcon.1, hcon.2⟩
  unfold mergeMem
  rw [getElem?_listWrite _ _ _ _
    (by
      rw [length_listWrite _ _ _
        (by simp only [List.length_replicate]; omega)]
      simp only [List.length_replicate]
      omega)]
  rcases hs with hlt | hge
  · rw [if_pos (by omega)]
    exact mergeMem_inner_byte r s a hr
  · rw [if_neg (by omega), if_neg (by omega)]
    exact mergeMem_inner_byte r s a hr

/-- When two regions are neighbors or intersect, their merged span covers
exactly the union of their coverages (no gap). -/
theorem merge_cover_union (r s : VirtualRegister)
    (hc : (r.isNeighbor s || r.isIntersect s) = true) (a : Nat) :
    (min r.start s.start ≤ a
      ∧ a < min r.start s.start
          + (max (r.start + r.mem.length) (s.start + s.mem.length)
            - min r.start s.start))
    ↔ (covers r a ∨ covers s a) := by
  rw [mergeCond_iff] at hc
  unfold covers
  omega

/-- A `countP` of one pins down a unique satisfying entry. -/
theorem countP_eq_one_unique {α : Type} (p : α → Bool) (l : List α)
    (h : l.countP p = 1) :
    ∃ x ∈ l, p x = true ∧ ∀ y ∈ l, p y = true → y = x := by
  induction l with
  | nil => simp at h
  | cons a tl ih =>
    rw [List.countP_cons] at h
    by_cases hpa : p a = true
    · have htl : tl.countP p = 0 := by
        rw [if_pos hpa] at h
        omega
      refine ⟨a, List.mem_cons_self a tl, hpa, ?_⟩
      intro y hy hpy
      rcases List.mem_cons.mp hy with rfl | hy2
      · rfl
      · exact absurd hpy (List.countP_eq_zero.mp htl y hy2)
    · rw [if_neg hpa] at h
      have h1 : tl.countP p = 1 := by omega
      obtain ⟨x, hx, hpx, huniq⟩ := ih h1
      refine ⟨x, List.mem_cons_of_mem a hx, hpx, ?_⟩
      intro y hy hpy
      rcases List.mem_cons.mp hy with rfl | hy2
      · exact absurd hpy hpa
      · exact huniq y hy2 hpy

/-- A covered address has a byte. -/
theorem byteAt_covers (r : VirtualRegister) (a : Nat) (h : covers r a) :
    ∃ v, byteAt r a = some v := by
  obtain ⟨h1, h2⟩ := h
  unfold byteAt
  rw [List.get?_eq_getElem?]
  have hidx : a - r.start < r.mem.length := by omega
  exact ⟨r.mem[a - r.start], List.getElem?_eq_getElem hidx⟩

/-- Dropping to a known byte and taking one element yields that byte. -/
theorem take_one_of_getElem (mem : List Nat) (i v : Nat)
    (h : mem[i]? = some v) : (mem.drop i).take 1 = [v] := by
  have hidx : i < mem.length := by
    by_contra hc
    push_neg at hc
    rw [List.getElem?_eq_none hc] at h
    cases h
  rw [List.drop_eq_getElem_cons hidx]
  have hval : mem[i] = v := by
    have he := List.getElem?_eq_getElem hidx
    rw [he] at h
    exact Option.some.inj h
  rw [hval]
  rfl

/-- A one-byte `read_bytes` at a covered address returns exactly the byte. -/
theorem readBytes_covers_eq (r : VirtualRegister) (a v : Nat)
    (h : covers r a) (hv : byteAt r a = some v) :
    r.readBytes a 1 = some ([v], readTrace r.rcb (List.range' a 1)) := by
  obtain ⟨h1, h2⟩ := h
  unfold VirtualRegister.readBytes
  rw [if_pos ((checkAddressRange_iff r a 1).mpr ⟨h1, by omega⟩)]
  have hv' : r.mem[a - r.start]? = some v := by
    unfold byteAt at hv
    rwa [List.get?_eq_getElem?] at hv
  rw [take_one_of_getElem r.mem (a - r.start) v hv']

/-- A one-byte `read_bytes` outside the region raises out-of-range. -/
theorem readBytes_not_covers (r : VirtualRegister) (a : Nat)
    (h : ¬ covers r a) : r.readBytes a 1 = none := by
  unfold VirtualRegister.readBytes
  rw [if_neg]
  intro hc
  rw [checkAddressRange_iff] at hc
  exact h ⟨hc.1, by omega⟩

/-- When every region covering `a` holds the byte `v` and at least one does,
the scanning one-byte bank read returns `v`. -/
theorem readRegisters_agree (bank : List VirtualRegister) (a v : Nat)
    (hval : ∀ x ∈ bank, covers x a → byteAt x a = some v)
    (hex : ∃ x ∈ bank, covers x a) :
    readRegisters bank a 1 = some [v] := by
  induction bank with
  | nil =>
    obtain ⟨x, hx, _⟩ := hex
    cases hx
  | cons r tl ih =>
    by_cases hcov : covers r a
    · unfold readRegisters
      rw [readBytes_covers_eq r a v hcov
        (hval r (List.mem_cons_self r tl) hcov)]
    · unfold readRegisters
      rw [readBytes_not_covers r a hcov]
      show readRegisters tl a 1 = some [v]
      apply ih
      · intro x hx hcx
        exact hval x (List.mem_cons_of_mem r hx) hcx
      · obtain ⟨x, hx, hcx⟩ := hex
        rcases List.mem_cons.mp hx with rfl | hx2
        · exact absurd hcx hcov
        · exact ⟨x, hx2, hcx⟩

/-- The coverage and content of a successfully merged region: the span
covers exactly the union, `s`'s bytes win where `s` covers, `r`'s bytes
survive elsewhere. -/
theorem merge_some_spec (r s m : VirtualRegister) (h : r.merge s = some m) :
    m.start = min r.start s.start
    ∧ m.start + m.mem.length
        = max (r.start + r.mem.length) (s.start + s.mem.length)
    ∧ (∀ b, covers m b ↔ (covers r b ∨ covers s b))
    ∧ (∀ b, covers s b → byteAt m b = byteAt s b)
    ∧ (∀ b, covers r b → ¬ covers s b → byteAt m b = byteAt r b) := by
  obtain ⟨hc, hm⟩ := merge_some_eq r s m h
  subst hm
  refine ⟨rfl, ?_, ?_, ?_, ?_⟩
  · show min r.start s.start + (mergeMem r s).length = _
    rw [mergeMem_length]
    omega
  · intro b
    show (min r.start s.start ≤ b
        ∧ b < min r.start s.start + (mergeMem r s).length) ↔ _
    rw [mergeMem_length]
    exact merge_cover_union r s hc b
  · intro b hb
    show (mergeMem r s).get? (b - min r.start s.start) = byteAt s b
    rw [List.get?_eq_getElem?, mergeMem_byte_s r s b hb]
    unfold byteAt
    rw [List.get?_eq_getElem?]
  · intro b hbr hbs
    show (mergeMem r s).get? (b - min r.start s.start) = byteAt r b
    rw [List.get?_eq_getElem?, mergeMem_byte_r r s b hbr hbs]
    unfold byteAt
    rw [List.get?_eq_getElem?]

/-- Decomposition of a successful inner-loop search: the absorbed region is
some later entry, which disappears from the list. -/
theorem mergeFirst_decomp (r : VirtualRegister) (rest : List VirtualRegister)
    (m : VirtualRegister) (rest2 : List VirtualRegister)
    (h : mergeFirst r rest = some (m, rest2)) :
    ∃ pre s post, rest = pre ++ s :: post ∧ rest2 = pre ++ post
      ∧ r.merge s = some m := by
  induction rest generalizing rest2 with
  | nil => cases h
  | cons s0 tl ih =>
    unfold mergeFirst at h
    cases hm : r.merge s0 with
    | some m0 =>
      simp only [hm] at h
      have hpair := Option.some.inj h
      have h1 : m0 = m := congrArg Prod.fst hpair
      have h2 : tl = rest2 := congrArg Prod.snd hpair
      exact ⟨[], s0, tl, by simp, by simp [← h2], by rw [hm, h1]⟩
    | none =>
      simp only [hm] at h
      rcases Option.map_eq_some'.mp h with ⟨p, hp, hpe⟩
      obtain ⟨m1, tl2⟩ := p
      have h1 : m1 = m := congrArg Prod.fst hpe
      have h2 : s0 :: tl2 = rest2 := congrArg Prod.snd hpe
      have hp' : mergeFirst r tl = some (m, tl2) := by
        rw [hp, h1]
      obtain ⟨pre, s, post, hrest, hrest2, hms⟩ := ih tl2 hp'
      refine ⟨s0 :: pre, s, post, ?_, ?_, hms⟩
      · rw [List.cons_append, ← hrest]
      · rw [← h2, hrest2]
        rfl

/-- Decomposition of one `merge_registers` pass: the first mergeable pair
(index1 < index2) collapses, index1 keeping its position. -/
theorem mergeStep_decomp (regs regs2 : List VirtualRegister)
    (h : mergeStep regs = some regs2) :
    ∃ pre r mid s post m, regs = pre ++ r :: (mid ++ s :: post)
      ∧ regs2 = pre ++ m :: (mid ++ post) ∧ r.merge s = some m := by
  induction regs generalizing regs2 with
  | nil => cases h
  | cons r0 tl ih =>
    unfold mergeStep at h
    cases hf : mergeFirst r0 tl with
    | some p =>
      obtain ⟨m0, tl2⟩ := p
      simp only [hf] at h
      have h2 := Option.some.inj h
      obtain ⟨pre, s, post, hrest, hrest2, hms⟩ :=
        mergeFirst_decomp r0 tl m0 tl2 hf
      refine ⟨[], r0, pre, s, post, m0, ?_, ?_, hms⟩
      · rw [List.nil_append, ← hrest]
      · rw [← h2, hrest2]
        rfl
    | none =>
      simp only [hf] at h
      rcases Option.map_eq_some'.mp h with ⟨l2, hl2, hle⟩
      obtain ⟨pre, r, mid, s, post, m, hrest, hrest2, hms⟩ := ih l2 hl2
      refine ⟨r0 :: pre, r, mid, s, post, m, ?_, ?_, hms⟩
      · rw [List.cons_append, ← hrest]
      · rw [← hle, hrest2]
        rfl

/-- One merge pass preserves unique coverage of an address and its byte. -/
theorem mergeStep_preserves (regs regs2 : List VirtualRegister) (a v : Nat)
    (h : mergeStep regs = some regs2)
    (hcount : countCovers regs a = 1)
    (hval : ∀ x ∈ regs, covers x a → byteAt x a = some v) :
    countCovers regs2 a = 1
      ∧ ∀ x ∈ regs2, covers x a → byteAt x a = some v := by
  obtain ⟨pre, r, mid, s, post, m, hrest, hrest2, hms⟩ :=
    mergeStep_decomp regs regs2 h
  obtain ⟨hstart, hlen, hcovm, hbyte_s, hbyte_r⟩ := merge_some_spec r s m hms
  have hmem_r : r ∈ regs := by
    rw [hrest]
    exact List.mem_append.mpr (Or.inr (List.mem_cons_self _ _))
  have hmem_s : s ∈ regs := by
    rw [hrest]
    refine List.mem_append.mpr (Or.inr (List.mem_cons_of_mem _ ?_))
    exact List.mem_append.mpr (Or.inr (List.mem_cons_self _ _))
  constructor
  · rw [hrest] at hcount
    rw [hrest2]
    unfold countCovers at hcount ⊢
    rw [List.countP_append, List.countP_cons, List.countP_append,
      List.countP_cons] at hcount
    rw [List.countP_append, List.countP_cons, List.countP_append]
    by_cases hcr : covers r a
    · by_cases hcs : covers s a
      · exfalso
        rw [if_pos (show decide (covers s a) = true by simpa using hcs),
          if_pos (show decide (covers r a) = true by simpa using hcr)] at hcount
        omega
      · rw [if_neg (show ¬ decide (covers s a) = true by simpa using hcs),
          if_pos (show decide (covers r a) = true by simpa using hcr)] at hcount
        rw [if_pos (show decide (covers m a) = true by
          simp only [decide_eq_true_eq]
          exact (hcovm a).mpr (Or.inl hcr))]
        omega
    · by_cases hcs : covers s a
      · rw [if_pos (show decide (covers s a) = true by simpa using hcs),
          if_neg (show ¬ decide (covers r a) = true by simpa using hcr)] at hcount
        rw [if_pos (show decide (covers m a) = true by
          simp only [decide_eq_true_eq]
          exact (hcovm a).mpr (Or.inr hcs))]
        omega
      · rw [if_neg (show ¬ decide (covers s a) = true by simpa using hcs),
          if_neg (show ¬ decide (covers r a) = true by simpa using hcr)] at hcount
        rw [if_neg (show ¬ decide (covers m a) = true by
          simp only [decide_eq_true_eq]
          intro hcm
          rcases (hcovm a).mp hcm with hx | hx
          · exact hcr hx
          · exact hcs hx)]
        omega
  · intro x hx hcov
    rw [hrest2] at hx
    rcases List.mem_append.mp hx with hx1 | hx2
    · refine hval x ?_ hcov
      rw [hrest]
      exact List.mem_append.mpr (Or.inl hx1)
    · rcases List.mem_cons.mp hx2 with rfl | hx3
      · by_cases hcs : covers s a
        · rw [hbyte_s a hcs]
          exact hval s hmem_s hcs
        · rcases (hcovm a).mp hcov with hcr | hcs2
          · rw [hbyte_r a hcr hcs]
            exact hval r hmem_r hcr
          · exact absurd hcs2 hcs
      · rcases List.mem_append.mp hx3 with hx4 | hx5
        · refine hval x ?_ hcov
          rw [hrest]
          exact List.mem_append.mpr (Or.inr (List.mem_cons_of_mem _
            (List.mem_append.mpr (Or.inl hx4))))
        · refine hval x ?_ hcov
          rw [hrest]
          exact List.mem_append.mpr (Or.inr (List.mem_cons_of_mem _
            (List.mem_append.mpr (Or.inr (List.mem_cons_of_mem _ hx5)))))

/-- The whole merge recursion preserves unique coverage and the byte. -/
theorem mergeGo_preserves (fuel : Nat) (regs : List VirtualRegister)
    (a v : Nat) (hcount : countCovers regs a = 1)
    (hval : ∀ x ∈ regs, covers x a → byteAt x a = some v) :
    countCovers (mergeRegistersGo fuel regs) a = 1
      ∧ ∀ x ∈ mergeRegistersGo fuel regs, covers x a → byteAt x a = some v := by
  induction fuel generalizing regs with
  | zero => exact ⟨hcount, hval⟩
  | succ fuel ih =>
    unfold mergeRegistersGo
    cases hst : mergeStep regs with
    | none => exact ⟨hcount, hval⟩
    | some regs2 =>
      obtain ⟨hc2, hv2⟩ := mergeStep_preserves regs regs2 a v hst hcount hval
      exact ih regs2 hc2 hv2

/-- A successful pass removes exactly one region. -/
theorem mergeStep_length (regs regs2 : List VirtualRegister)
    (h : mergeStep regs = some regs2) : regs2.length + 1 = regs.length := by
  obtain ⟨pre, r, mid, s, post, m, h1, h2, _⟩ := mergeStep_decomp regs regs2 h
  rw [h1, h2]
  simp only [List.length_append, List.length_cons]
  omega

/-- With fuel at least the region count the recursion reaches a fixpoint:
no pair of the result merges. -/
theorem mergeGo_fix (fuel : Nat) (regs : List VirtualRegister)
    (hfuel : regs.length ≤ fuel) :
    mergeStep (mergeRegistersGo fuel regs) = none := by
  induction fuel generalizing regs with
  | zero =>
    cases regs with
    | nil => rfl
    | cons r tl => simp at hfuel
  | succ fuel ih =>
    unfold mergeRegistersGo
    cases hst : mergeStep regs with
    | none => exact hst
    | some regs2 =>
      apply ih
      have := mergeStep_length regs regs2 hst
      omega

/-- A bank in which no pair merges is a fixpoint of `merge_registers`. -/
theorem mergeRegisters_fix (regs : List VirtualRegister)
    (h : mergeStep regs = none) : mergeRegisters regs = regs := by
  unfold mergeRegisters
  cases hl : regs.length with
  | zero => rfl
  | succ n =>
    unfold mergeRegistersGo
    rw [h]

/-- The function `merge_registers` is idempotent. -/
theorem mergeRegisters_idem (regs : List VirtualRegister) :
    mergeRegisters (mergeRegisters regs) = mergeRegisters regs :=
  mergeRegisters_fix _
    (show mergeStep (mergeRegisters regs) = none from
      mergeGo_fix regs.length regs le_rfl)

/-- A one-byte read at a uniquely covered address survives merging. -/
theorem mergeRegisters_read_preserved (regs : List VirtualRegister) (a : Nat)
    (h1 : countCovers regs a = 1) :
    readRegisters (mergeRegisters regs) a 1 = readRegisters regs a 1 := by
  have h1' : regs.countP (fun x => decide (covers x a)) = 1 := h1
  obtain ⟨x, hx, hpx, huniq⟩ := countP_eq_one_unique _ regs h1'
  have hcx : covers x a := of_decide_eq_true hpx
  obtain ⟨v, hv⟩ := byteAt_covers x a hcx
  have hval : ∀ y ∈ regs, covers y a → byteAt y a = some v := by
    intro y hy hcy
    rw [huniq y hy (decide_eq_true hcy)]
    exact hv
  obtain ⟨hc2, hv2⟩ := mergeGo_preserves regs.length regs a v h1 hval
  have hex2 : ∃ y ∈ mergeRegistersGo regs.length regs, covers y a := by
    have hc2' : (mergeRegistersGo regs.length regs).countP
        (fun y => decide (covers y a)) = 1 := hc2
    obtain ⟨y, hy, hpy, _⟩ := countP_eq_one_unique _ _ hc2'
    exact ⟨y, hy, of_decide_eq_true hpy⟩
  unfold mergeRegisters
  rw [readRegisters_agree _ a v hv2 hex2,
    readRegisters_agree regs a v hval ⟨x, hx, hcx⟩]

/-- C5 counterexample: the bank [region [0,2) = bytes 01 02, region [1,3) =
bytes 09 09] serves a one-byte read at address 1 from the FIRST region
containing it (value 2), but after `merge_registers` the single region's
byte at 1 is 9 (the second region's bytes won the overlap), so merging does
not preserve the visible content at the overlapped address. -/
theorem mergeRegisters_overlap_changes_read :
    readRegisters [⟨0, [1, 2], [], []⟩, ⟨1, [9, 9], [], []⟩] 1 1 = some [2]
    ∧ mergeRegisters [⟨0, [1, 2], [], []⟩, ⟨1, [9, 9], [], []⟩]
      = [⟨0, [1, 9, 9], [], []⟩]
    ∧ readRegisters
        (mergeRegisters [⟨0, [1, 2], [], []⟩, ⟨1, [9, 9], [], []⟩]) 1 1
      = some [9]
    ∧ (some [9] : Option (List Nat)) ≠ some [2] :=
  ⟨rfl, rfl, rfl, by decide⟩

/-- C5 (amended): `merge_registers` is idempotent; a merged pair spans
[min(start1,start2), max(end1,end2)) and covers exactly the union of the two
coverages, with the second region's bytes winning on overlap and the first
region's bytes surviving elsewhere; and visible content is preserved at
every address contained in exactly one region of the input bank — at an
address covered by more than one region the one-byte read may change, since
the input bank serves the first covering region while merging lets the
second region's bytes overwrite the first's. -/
theorem mergeRegisters_spec (regs : List VirtualRegister) (a : Nat)
    (r s m : VirtualRegister) :
    mergeRegisters (mergeRegisters regs) = mergeRegisters regs
    ∧ (r.merge s = some m →
        m.start = min r.start s.start
        ∧ m.start + m.mem.length
            = max (r.start + r.mem.length) (s.start + s.mem.length)
        ∧ (∀ b, covers m b ↔ (covers r b ∨ covers s b))
        ∧ (∀ b, covers s b → byteAt m b = byteAt s b)
        ∧ (∀ b, covers r b → ¬ covers s b → byteAt m b = byteAt r b))
    ∧ (countCovers regs a = 1 →
        readRegisters (mergeRegisters regs) a 1 = readRegisters regs a 1) :=
  ⟨mergeRegisters_idem regs,
    fun h => merge_some_spec r s m h,
    fun h1 => mergeRegisters_read_preserved regs a h1⟩

/-- Witness for C5 (amended) at a concrete two-region bank (neighbors
[0,1) and [1,2)). -/
theorem mergeRegisters_spec_witness :
    VirtualRegister.merge ⟨0, [5], [], []⟩ ⟨1, [7], [], []⟩
      = some ⟨0, [5, 7], [], []⟩
    ∧ countCovers [⟨0, [5], [], []⟩, ⟨1, [7], [], []⟩] 0 = 1
    ∧ (covers (⟨0, [5, 7], [], []⟩ : VirtualRegister) 0 ↔
        (covers (⟨0, [5], [], []⟩ : VirtualRegister) 0
          ∨ covers (⟨1, [7], [], []⟩ : VirtualRegister) 0))
    ∧ readRegisters
        (mergeRegisters [⟨0, [5], [], []⟩, ⟨1, [7], [], []⟩]) 0 1
      = readRegisters [⟨0, [5], [], []⟩, ⟨1, [7], [], []⟩] 0 1 :=
  ⟨rfl, by decide,
    (((mergeRegisters_spec [⟨0, [5], [], []⟩, ⟨1, [7], [], []⟩] 0
      ⟨0, [5], [], []⟩ ⟨1, [7], [], []⟩ ⟨0, [5, 7], [], []⟩).2.1 rfl).2.2.1) 0,
    (mergeRegisters_spec [⟨0, [5], [], []⟩, ⟨1, [7], [], []⟩] 0
      ⟨0, [5], [], []⟩ ⟨1, [7], [], []⟩ ⟨0, [5, 7], [], []⟩).2.2 (by decide)⟩

end Sitcpy
